import Mathlib

/-!
Shallow embedding of the PRG module of the libprio-rs repository
(`src/vdaf/prg.rs`): the `Seed` type with its constant-time equality,
XOR operations and binary codec, the `Prg` contract with its AES128
instantiation (CMAC-AES128 key derivation, AES128 in CTR mode with a
64-bit big-endian counter for expansion), and the `SeedStream::fill`
operation.

Bytes are modelled as `Nat` values below 256; fixed-size arrays
`[u8; L]` become lists with a length hypothesis.  The AES128 block
cipher, CMAC and the 64-bit big-endian counter mode implemented by the
external `aes`, `cmac` and `ctr` crates are embedded from their
defining standards (FIPS 197, RFC 4493) so that the concrete test
vector of the repository can be evaluated inside Lean.
-/

set_option maxRecDepth 8000

namespace LibprioPrg

/-- Big-endian interpretation of a byte list as a natural number. -/
def bytesToNatBE (l : List Nat) : Nat :=
  l.foldl (fun a b => a * 256 + b) 0

/-- Big-endian byte expansion of a natural number into `n` bytes. -/
def natToBytesBE (n x : Nat) : List Nat :=
  (List.range n).map (fun i => (x >>> (8 * (n - 1 - i))) &&& 255)

/-! ### AES-128 block cipher (FIPS 197), as implemented by the `aes` crate -/

/-- The AES S-box packed into one natural number: the substitution of
byte `b` occupies bits `8*b` through `8*b+7`. -/
def sboxTable : Nat :=
  0x16bb54b00f2d99416842e6bf0d89a18cdf2855cee9871e9b948ed9691198f8e19e1dc186b95735610ef6034866b53e708a8bbd4b1f74dde8c6b4a61c2e2578ba08ae7a65eaf4566ca94ed58d6d37c8e779e4959162acd3c25c2406490a3a32e0db0b5ede14b8ee4688902a22dc4f816073195d643d7ea7c41744975fec130ccdd2f3ff1021dab6bcf5389d928f40a351a89f3c507f02f94585334d43fbaaefd0cf584c4a39becb6a5bb1fc20ed00d153842fe329b3d63b52a05a6e1b1a2c830975b227ebe28012079a059618c323c7041531d871f1e5a534ccf73f362693fdb7c072a49cafa2d4adf04759fa7dc982ca76abd7fe2b670130c56f6bf27b777c63

/-- AES S-box lookup. -/
def sbox (b : Nat) : Nat :=
  (sboxTable >>> (8 * b)) &&& 255

/-- Multiplication by `x` in GF(2^8) with the AES reduction polynomial. -/
def xtime (b : Nat) : Nat :=
  if b &&& 128 = 0 then (b <<< 1) &&& 255 else ((b <<< 1) ^^^ 27) &&& 255

/-- Multiplication by 3 in GF(2^8). -/
def mul3 (b : Nat) : Nat :=
  xtime b ^^^ b

/-- AES round constants. -/
def rcon : List Nat :=
  [1, 2, 4, 8, 16, 32, 64, 128, 27, 54]

/-- Rotate a 32-bit word left by one byte. -/
def rotWord (w : Nat) : Nat :=
  ((w <<< 8) ||| (w >>> 24)) &&& 0xffffffff

/-- Apply the S-box to each byte of a 32-bit word. -/
def subWord (w : Nat) : Nat :=
  (sbox ((w >>> 24) &&& 255) <<< 24) ||| (sbox ((w >>> 16) &&& 255) <<< 16) |||
    (sbox ((w >>> 8) &&& 255) <<< 8) ||| sbox (w &&& 255)

/-- Big-endian bytes of a 32-bit word. -/
def wordBytes (w : Nat) : List Nat :=
  [(w >>> 24) &&& 255, (w >>> 16) &&& 255, (w >>> 8) &&& 255, w &&& 255]

/-- One key-expansion step per remaining round constant, carrying the
previous four key-schedule words and emitting one round key each. -/
def expandRounds : List Nat → Nat × Nat × Nat × Nat → List (List Nat)
  | [], _ => []
  | rc :: rest, (a, b, c, d) =>
    let t := subWord (rotWord d) ^^^ (rc <<< 24)
    let a2 := a ^^^ t
    let b2 := b ^^^ a2
    let c2 := c ^^^ b2
    let d2 := d ^^^ c2
    (wordBytes a2 ++ wordBytes b2 ++ wordBytes c2 ++ wordBytes d2) ::
      expandRounds rest (a2, b2, c2, d2)

/-- AES-128 key expansion: the eleven 16-byte round keys. -/
def expandKey (key : List Nat) : List (List Nat) :=
  let w0 := bytesToNatBE (key.take 4)
  let w1 := bytesToNatBE ((key.drop 4).take 4)
  let w2 := bytesToNatBE ((key.drop 8).take 4)
  let w3 := bytesToNatBE ((key.drop 12).take 4)
  key :: expandRounds rcon (w0, w1, w2, w3)

/-- SubBytes on the flat 16-byte state. -/
def subBytes (s : List Nat) : List Nat :=
  s.map sbox

/-- ShiftRows on the flat 16-byte state (byte `i` holds row `i % 4`,
column `i / 4`). -/
def shiftRows : List Nat → List Nat
  | [s0, s1, s2, s3, s4, s5, s6, s7, s8, s9, s10, s11, s12, s13, s14, s15] =>
    [s0, s5, s10, s15, s4, s9, s14, s3, s8, s13, s2, s7, s12, s1, s6, s11]
  | l => l

/-- MixColumns on one 4-byte column. -/
def mixColumn : List Nat → List Nat
  | [a, b, c, d] =>
    [xtime a ^^^ mul3 b ^^^ c ^^^ d, a ^^^ xtime b ^^^ mul3 c ^^^ d,
      a ^^^ b ^^^ xtime c ^^^ mul3 d, mul3 a ^^^ b ^^^ c ^^^ xtime d]
  | l => l

/-- MixColumns on the flat 16-byte state. -/
def mixColumns (s : List Nat) : List Nat :=
  mixColumn (s.take 4) ++ mixColumn ((s.drop 4).take 4) ++
    mixColumn ((s.drop 8).take 4) ++ mixColumn ((s.drop 12).take 4)

/-- AddRoundKey: bytewise XOR of state and round key. -/
def addRoundKey (s rk : List Nat) : List Nat :=
  List.zipWith (fun a b => a ^^^ b) s rk

/-- AES-128 single-block encryption. -/
def aes128EncryptBlock (key block : List Nat) : List Nat :=
  let rks := expandKey key
  let s0 := addRoundKey block (rks.getD 0 [])
  let sm := (List.range 9).foldl
    (fun s i => addRoundKey (mixColumns (shiftRows (subBytes s))) (rks.getD (i + 1) [])) s0
  addRoundKey (shiftRows (subBytes sm)) (rks.getD 10 [])

/-! ### CMAC-AES128 (RFC 4493), as implemented by the `cmac` crate -/

/-- Doubling in GF(2^128) used for CMAC subkey generation. -/
def dbl (x : Nat) : Nat :=
  if x >>> 127 = 0 then (x <<< 1) &&& (2 ^ 128 - 1)
  else ((x <<< 1) ^^^ 0x87) &&& (2 ^ 128 - 1)

/-- CMAC final-block computation: a complete final block is masked with
subkey `k1`, an incomplete one is padded with `0x80 0x00...` and masked
with subkey `k2`; the chaining value `x` is XORed in and the block is
encrypted. -/
def cmacFinal (key : List Nat) (x : Nat) (msg : List Nat) (k1 k2 : Nat) : Nat :=
  if msg.length = 16 then
    bytesToNatBE (aes128EncryptBlock key (natToBytesBE 16 (x ^^^ bytesToNatBE msg ^^^ k1)))
  else
    let padded := msg ++ 128 :: List.replicate (15 - msg.length) 0
    bytesToNatBE (aes128EncryptBlock key (natToBytesBE 16 (x ^^^ bytesToNatBE padded ^^^ k2)))

/-- CMAC block iteration, structurally recursive on a fuel argument that
the caller sets at least as large as the number of blocks. -/
def cmacLoop (key : List Nat) : Nat → Nat → List Nat → Nat → Nat → Nat
  | 0, x, msg, k1, k2 => cmacFinal key x msg k1 k2
  | fuel + 1, x, msg, k1, k2 =>
    if msg.length ≤ 16 then cmacFinal key x msg k1 k2
    else
      cmacLoop key fuel
        (bytesToNatBE (aes128EncryptBlock key (natToBytesBE 16 (x ^^^ bytesToNatBE (msg.take 16)))))
        (msg.drop 16) k1 k2

/-- CMAC-AES128 of a message under a 16-byte key. -/
def cmacAes128 (key msg : List Nat) : List Nat :=
  let l := bytesToNatBE (aes128EncryptBlock key (List.replicate 16 0))
  let k1 := dbl l
  let k2 := dbl k1
  natToBytesBE 16 (cmacLoop key msg.length 0 msg k1 k2)

/-! ### The embedded module: `Seed`, codec, `SeedStreamAes128`, `PrgAes128` -/

/-- In-place bytewise XOR accumulation of `Seed::xor_accumulate`:
`self.0[i] ^= other.0[i]` for every index. -/
def Seed.xor_accumulate (s other : List Nat) : List Nat :=
  List.zipWith (fun a b => a ^^^ b) s other

/-- Bytewise XOR of `Seed::xor`: `self.0[i] = left.0[i] ^ right.0[i]`
for every index. -/
def Seed.xor (left right : List Nat) : List Nat :=
  List.zipWith (fun a b => a ^^^ b) left right

/-- Constant-time equality of `PartialEq for Seed`: accumulate
`r |= x ^ y` over the zipped bytes and compare the accumulator with
zero. -/
def Seed.eq (a b : List Nat) : Bool :=
  ((a.zip b).foldl (fun r p => r ||| (p.1 ^^^ p.2)) 0) == 0

/-- Modelled from the spec: the decode error kind of the codec
framework (`CodecError` lives in `src/vdaf/mod.rs`, which is not part
of the sources); the spec names `TruncatedInput` as the failure when a
decode reads past the end of the input. -/
inductive CodecError where
  | truncatedInput
deriving DecidableEq

/-- A read cursor over a byte string, as `std::io::Cursor<&[u8]>`. -/
structure Cursor where
  data : List Nat
  pos : Nat
deriving DecidableEq

/-- Modelled from the spec and the documented behaviour of
`std::io::Read::read_exact` on a cursor: read exactly `n` bytes and
advance, or fail with a truncation error when fewer than `n` bytes
remain. -/
def readExact (c : Cursor) (n : Nat) : Except CodecError (List Nat × Cursor) :=
  if c.pos + n ≤ c.data.length then
    Except.ok ((c.data.drop c.pos).take n, Cursor.mk c.data (c.pos + n))
  else
    Except.error CodecError.truncatedInput

/-- The `Encode for Seed` instance: append the raw seed bytes to the
output buffer. -/
def Seed.encode (s bytes : List Nat) : List Nat :=
  bytes ++ s

/-- The `Decode for Seed` instance: read exactly `L` bytes from the
cursor. -/
def Seed.decode (L : Nat) (c : Cursor) : Except CodecError (List Nat × Cursor) :=
  readExact c L

/-- The state of `SeedStreamAes128`: AES-128 in CTR mode (`Ctr64BE`,
64-bit big-endian block counter occupying the last eight bytes of the
IV block), together with the number of keystream bytes already
consumed. -/
structure SeedStreamAes128 where
  key : List Nat
  iv : List Nat
  pos : Nat
deriving DecidableEq

/-- `SeedStreamAes128::new`: a fresh stream over the given key and IV. -/
def SeedStreamAes128.new (key iv : List Nat) : SeedStreamAes128 :=
  SeedStreamAes128.mk key iv 0

/-- Byte `i` of the `Ctr64BE` keystream: encrypt the block whose first
eight bytes come from the IV and whose last eight bytes hold the
big-endian 64-bit counter, then select the byte inside the block. -/
def ksByte (key iv : List Nat) (i : Nat) : Nat :=
  let ctr0 := bytesToNatBE (iv.drop 8)
  let block := iv.take 8 ++ natToBytesBE 8 ((ctr0 + i / 16) % 2 ^ 64)
  (aes128EncryptBlock key block).getD (i % 16) 0

/-- `SeedStream for SeedStreamAes128::fill`: zero the destination
buffer, XOR the next keystream bytes into it, and advance the stream
position by the buffer length. -/
def SeedStreamAes128.fill (s : SeedStreamAes128) (buf : List Nat) :
    List Nat × SeedStreamAes128 :=
  let zeroed := buf.map (fun _ => 0)
  let ks := (List.range buf.length).map (fun j => ksByte s.key s.iv (s.pos + j))
  (List.zipWith (fun a b => a ^^^ b) zeroed ks,
    SeedStreamAes128.mk s.key s.iv (s.pos + buf.length))

/-- The state of `PrgAes128`: the CMAC accumulator, i.e. the MAC key
(the seed) together with the message fragments absorbed so far. -/
structure PrgAes128 where
  key : List Nat
  msg : List Nat
deriving DecidableEq

/-- `Prg::init` for `PrgAes128`: key the CMAC with the seed. -/
def PrgAes128.init (seed : List Nat) : PrgAes128 :=
  PrgAes128.mk seed []

/-- `Prg::update` for `PrgAes128`: absorb the next info fragment into
the running MAC. -/
def PrgAes128.update (p : PrgAes128) (data : List Nat) : PrgAes128 :=
  PrgAes128.mk p.key (p.msg ++ data)

/-- `Prg::into_seed_stream` for `PrgAes128`: finalize the MAC and use
the tag as the CTR-mode key with an all-zero IV. -/
def PrgAes128.into_seed_stream (p : PrgAes128) : SeedStreamAes128 :=
  SeedStreamAes128.new (cmacAes128 p.key p.msg) (List.replicate 16 0)

/-- The `Prg::into_seed` default method: finalize into a seed stream
and fill a fresh 16-byte buffer from it. -/
def PrgAes128.into_seed (p : PrgAes128) : List Nat :=
  let new_seed := List.replicate 16 0
  let seed_stream := p.into_seed_stream
  (seed_stream.fill new_seed).1

/-! ### Helper lemmas -/

/-- A bitwise OR of naturals is zero exactly when both operands are. -/
lemma lor_eq_zero_iff (a b : Nat) : a ||| b = 0 ↔ a = 0 ∧ b = 0 := by
  constructor
  · intro h
    refine ⟨Nat.zero_of_testBit_eq_false fun i => ?_,
      Nat.zero_of_testBit_eq_false fun i => ?_⟩ <;>
    · have ht := congrArg (fun x => Nat.testBit x i) h
      simp only [Nat.testBit_lor, Nat.zero_testBit, Bool.or_eq_false_iff] at ht
      tauto
  · rintro ⟨rfl, rfl⟩
    rfl

/-- The OR-accumulating fold of bytewise XORs is zero exactly when the
accumulator is zero and every zipped pair agrees. -/
lemma foldl_or_eq_zero (l : List (Nat × Nat)) :
    ∀ acc, (l.foldl (fun r p => r ||| (p.1 ^^^ p.2)) acc = 0) ↔
      (acc = 0 ∧ ∀ p ∈ l, p.1 = p.2) := by
  induction l with
  | nil => intro acc; simp
  | cons hd tl ih =>
    intro acc
    simp only [List.foldl_cons, ih, lor_eq_zero_iff, List.mem_cons]
    constructor
    · rintro ⟨⟨h1, h2⟩, h3⟩
      refine ⟨h1, fun p hp => ?_⟩
      rcases hp with rfl | hp
      · exact Nat.xor_eq_zero.mp h2
      · exact h3 p hp
    · rintro ⟨h1, h2⟩
      exact ⟨⟨h1, Nat.xor_eq_zero.mpr (h2 hd (Or.inl rfl))⟩, fun p hp => h2 p (Or.inr hp)⟩

/-- For lists of equal length, all zipped pairs agree exactly when the
lists are equal. -/
lemma zip_forall_eq : ∀ (a b : List Nat), a.length = b.length →
    ((∀ p ∈ a.zip b, p.1 = p.2) ↔ a = b) := by
  intro a
  induction a with
  | nil =>
    intro b h
    cases b with
    | nil => simp
    | cons y ys => simp at h
  | cons x xs ih =>
    intro b h
    cases b with
    | nil => simp at h
    | cons y ys =>
      have hlen : xs.length = ys.length := by simpa using h
      simp only [List.zip_cons_cons, List.mem_cons, List.cons.injEq]
      constructor
      · intro hall
        refine ⟨hall (x, y) (Or.inl rfl), (ih ys hlen).mp fun p hp => hall p (Or.inr hp)⟩
      · rintro ⟨rfl, rfl⟩
        intro p hp
        rcases hp with rfl | hp
        · rfl
        · exact ((ih _ hlen).mpr rfl) p hp

/-- Bytewise XOR cancellation on zipped lists of equal length. -/
lemma zipWith_xor_cancel : ∀ (s o : List Nat), s.length = o.length →
    List.zipWith (fun a b => a ^^^ b) (List.zipWith (fun a b => a ^^^ b) s o) o = s := by
  intro s
  induction s with
  | nil =>
    intro o h
    cases o with
    | nil => rfl
    | cons y ys => simp at h
  | cons x xs ih =>
    intro o h
    cases o with
    | nil => simp at h
    | cons y ys =>
      have hlen : xs.length = ys.length := by simpa using h
      simp only [List.zipWith_cons_cons, List.cons.injEq]
      exact ⟨Nat.xor_cancel_right y x, ih ys hlen⟩

/-! ### Claims about the Seed operations and the codec -/

/-- Claim C4: seed equality accumulates `diff |= a[i] ^ b[i]` over the
full width and returns `diff == 0`; for seeds of length `L` it returns
`true` exactly when the seeds agree at every byte position. -/
theorem c4_seed_eq_iff (L : Nat) (a b : List Nat)
    (ha : a.length = L) (hb : b.length = L) :
    Seed.eq a b = true ↔ a = b := by
  unfold Seed.eq
  rw [beq_iff_eq, foldl_or_eq_zero]
  rw [zip_forall_eq a b (by omega)]
  simp

theorem c4_seed_eq_iff_witness :
    ([1, 2].length = 2 ∧ [1, 2].length = 2) ∧
      (Seed.eq [1, 2] [1, 2] = true ↔ ([1, 2] : List Nat) = [1, 2]) :=
  ⟨⟨by decide, by decide⟩, c4_seed_eq_iff 2 [1, 2] [1, 2] (by decide) (by decide)⟩

/-- Claim C6: encoding appends exactly the raw seed bytes with no
framing, and decoding the encoding of a length-`L` seed returns that
seed with the cursor advanced by `L`. -/
theorem c6_codec_round_trip (L : Nat) (s acc : List Nat) (h : s.length = L) :
    Seed.encode s acc = acc ++ s ∧
      Seed.decode L (Cursor.mk (Seed.encode s []) 0) =
        Except.ok (s, Cursor.mk s L) := by
  subst h
  refine ⟨rfl, ?_⟩
  unfold Seed.decode readExact Seed.encode
  simp

theorem c6_codec_round_trip_witness :
    ([3, 4].length = 2 ∧ Seed.encode [3, 4] [9] = [9] ++ [3, 4] ∧
      Seed.decode 2 (Cursor.mk (Seed.encode [3, 4] []) 0) =
        Except.ok ([3, 4], Cursor.mk [3, 4] 2)) :=
  ⟨by decide, c6_codec_round_trip 2 [3, 4] [9] (by decide)⟩

/-- Claim C7: when fewer than `L` bytes remain at the cursor, decoding
fails with the truncation error and no seed value is returned. -/
theorem c7_decode_truncated_fails (L : Nat) (c : Cursor)
    (h : c.data.length < c.pos + L) :
    Seed.decode L c = Except.error CodecError.truncatedInput := by
  unfold Seed.decode readExact
  rw [if_neg (by omega)]

theorem c7_decode_truncated_fails_witness :
    ((Cursor.mk [5] 0).data.length < (Cursor.mk [5] 0).pos + 2) ∧
      Seed.decode 2 (Cursor.mk [5] 0) = Except.error CodecError.truncatedInput :=
  ⟨by decide, c7_decode_truncated_fails 2 (Cursor.mk [5] 0) (by decide)⟩

/-- Claim C10: when at least `L` bytes remain at the cursor, decoding
succeeds with exactly the next `L` bytes, advances the cursor by
exactly `L`, and performs no trailing-data check. -/
theorem c10_decode_long_input (L : Nat) (c : Cursor)
    (h : c.pos + L ≤ c.data.length) :
    Seed.decode L c =
      Except.ok ((c.data.drop c.pos).take L, Cursor.mk c.data (c.pos + L)) := by
  unfold Seed.decode readExact
  rw [if_pos h]

theorem c10_decode_long_input_witness :
    ((Cursor.mk [1, 2, 3] 1).pos + 1 ≤ (Cursor.mk [1, 2, 3] 1).data.length) ∧
      Seed.decode 1 (Cursor.mk [1, 2, 3] 1) =
        Except.ok ((([1, 2, 3] : List Nat).drop 1).take 1, Cursor.mk [1, 2, 3] 2) :=
  ⟨by decide, c10_decode_long_input 1 (Cursor.mk [1, 2, 3] 1) (by decide)⟩

/-- Claim C8: XOR accumulation is self-inverse on seeds of equal
length, and `Seed::xor` writes `left[i] ^ right[i]` at every index. -/
theorem c8_xor_involutive_pointwise (L : Nat) (s o l r : List Nat) (i : Nat)
    (hs : s.length = L) (ho : o.length = L) (hl : l.length = L)
    (hr : r.length = L) (hi : i < L) :
    Seed.xor_accumulate (Seed.xor_accumulate s o) o = s ∧
      (Seed.xor l r).getD i 0 = l.getD i 0 ^^^ r.getD i 0 := by
  constructor
  · exact zipWith_xor_cancel s o (by omega)
  · have hxl : (Seed.xor l r).length = L := by
      simp [Seed.xor, hl, hr]
    simp only [List.getD_eq_getElem?_getD]
    rw [List.getElem?_eq_getElem (by omega), List.getElem?_eq_getElem (by omega),
      List.getElem?_eq_getElem (by omega)]
    simp [Seed.xor, List.getElem_zipWith]

theorem c8_xor_involutive_pointwise_witness :
    ([1, 2].length = 2 ∧ [3, 4].length = 2 ∧ [5, 6].length = 2 ∧
        [7, 8].length = 2 ∧ 0 < 2) ∧
      (Seed.xor_accumulate (Seed.xor_accumulate [1, 2] [3, 4]) [3, 4] = [1, 2] ∧
        (Seed.xor [5, 6] [7, 8]).getD 0 0 =
          ([5, 6] : List Nat).getD 0 0 ^^^ ([7, 8] : List Nat).getD 0 0) :=
  ⟨by decide,
    c8_xor_involutive_pointwise 2 [1, 2] [3, 4] [5, 6] [7, 8] 0
      (by decide) (by decide) (by decide) (by decide) (by decide)⟩

/-! ### Claims about the seed stream and the PRG state machine -/

/-- XORing a keystream into a zeroed buffer returns the keystream
truncated to the buffer length. -/
lemma zipWith_zero_xor (b ks : List Nat) :
    List.zipWith (fun a c => a ^^^ c) (b.map fun _ => 0) ks = ks.take b.length := by
  induction b generalizing ks with
  | nil => simp
  | cons x xs ih =>
    cases ks with
    | nil => simp
    | cons k kt =>
      simp only [List.map_cons, List.zipWith_cons_cons, List.length_cons,
        List.take_succ_cons, Nat.zero_xor, ih]

/-- The bytes written by `fill` are the next `buf.length` keystream
bytes from the current position. -/
lemma fill_bytes (s : SeedStreamAes128) (buf : List Nat) :
    (s.fill buf).1 =
      (List.range buf.length).map (fun j => ksByte s.key s.iv (s.pos + j)) := by
  unfold SeedStreamAes128.fill
  simp only [zipWith_zero_xor]
  rw [List.take_of_length_le (by simp)]

/-- The state after `fill` advances the position by the buffer length. -/
lemma fill_state (s : SeedStreamAes128) (buf : List Nat) :
    (s.fill buf).2 = SeedStreamAes128.mk s.key s.iv (s.pos + buf.length) :=
  rfl

/-- The key of the stream is unchanged by `fill`. -/
lemma fill_snd_key (s : SeedStreamAes128) (buf : List Nat) :
    (s.fill buf).2.key = s.key :=
  rfl

/-- The IV of the stream is unchanged by `fill`. -/
lemma fill_snd_iv (s : SeedStreamAes128) (buf : List Nat) :
    (s.fill buf).2.iv = s.iv :=
  rfl

/-- The position of the stream advances by the buffer length. -/
lemma fill_snd_pos (s : SeedStreamAes128) (buf : List Nat) :
    (s.fill buf).2.pos = s.pos + buf.length :=
  rfl

/-- Claim C9: the bytes written by `fill`, and the resulting stream
state, are independent of the destination buffer's prior contents,
because the buffer is zeroed before the keystream is XORed in. -/
theorem c9_fill_ignores_buffer_contents (s : SeedStreamAes128) (b1 b2 : List Nat)
    (h : b1.length = b2.length) : s.fill b1 = s.fill b2 := by
  refine Prod.ext ?_ ?_
  · rw [fill_bytes, fill_bytes, h]
  · rw [fill_state, fill_state, h]

theorem c9_fill_ignores_buffer_contents_witness :
    ([7].length = [9].length) ∧
      (SeedStreamAes128.mk (List.replicate 16 0) (List.replicate 16 0) 0).fill [7] =
        (SeedStreamAes128.mk (List.replicate 16 0) (List.replicate 16 0) 0).fill [9] :=
  ⟨by decide,
    c9_fill_ignores_buffer_contents
      (SeedStreamAes128.mk (List.replicate 16 0) (List.replicate 16 0) 0) [7] [9] (by decide)⟩

/-- Claim C2: stream continuity — filling a buffer of length `n` in one
call writes the same byte sequence as filling a buffer of length `k`
and then a buffer of length `n - k` on the advanced stream,
concatenated, for every split point `k ≤ n`. -/
theorem c2_stream_continuity (s : SeedStreamAes128) (n k : Nat)
    (bn bk bm : List Nat) (hkn : k ≤ n) (hbn : bn.length = n)
    (hbk : bk.length = k) (hbm : bm.length = n - k) :
    (s.fill bn).1 = (s.fill bk).1 ++ ((s.fill bk).2.fill bm).1 := by
  obtain ⟨m, rfl⟩ : ∃ m, n = k + m := ⟨n - k, (Nat.add_sub_cancel' hkn).symm⟩
  rw [fill_bytes, fill_bytes, fill_bytes]
  simp only [fill_snd_key, fill_snd_iv, fill_snd_pos, hbn, hbk, hbm,
    Nat.add_sub_cancel_left]
  rw [List.range_add, List.map_append, List.map_map]
  have hfun : ((fun j => ksByte s.key s.iv (s.pos + j)) ∘ (fun x => k + x)) =
      fun j => ksByte s.key s.iv (s.pos + k + j) := by
    funext j
    simp [Function.comp, Nat.add_assoc]
  rw [hfun]

theorem c2_stream_continuity_witness :
    (1 ≤ 2 ∧ (List.replicate 2 (0 : Nat)).length = 2 ∧
        (List.replicate 1 (0 : Nat)).length = 1 ∧
        (List.replicate 1 (0 : Nat)).length = 2 - 1) ∧
      ((SeedStreamAes128.mk (List.replicate 16 0) (List.replicate 16 0) 0).fill
            (List.replicate 2 0)).1 =
        ((SeedStreamAes128.mk (List.replicate 16 0) (List.replicate 16 0) 0).fill
            (List.replicate 1 0)).1 ++
          (((SeedStreamAes128.mk (List.replicate 16 0) (List.replicate 16 0) 0).fill
                (List.replicate 1 0)).2.fill (List.replicate 1 0)).1 :=
  ⟨⟨by decide, by decide, by decide, by decide⟩,
    c2_stream_continuity (SeedStreamAes128.mk (List.replicate 16 0) (List.replicate 16 0) 0)
      2 1 (List.replicate 2 0) (List.replicate 1 0) (List.replicate 1 0)
      (by decide) (by decide) (by decide) (by decide)⟩

/-- Claim C3: the `into_seed` default method is bit-identical to
finalizing into a seed stream and filling a 16-byte buffer from it. -/
theorem c3_into_seed_eq_stream_fill (p : PrgAes128) (buf : List Nat)
    (h : buf.length = 16) :
    p.into_seed = ((p.into_seed_stream).fill buf).1 := by
  unfold PrgAes128.into_seed
  rw [fill_bytes, fill_bytes]
  simp [h]

theorem c3_into_seed_eq_stream_fill_witness :
    ((List.replicate 16 (0 : Nat)).length = 16) ∧
      (PrgAes128.mk (List.replicate 16 0) []).into_seed =
        (((PrgAes128.mk (List.replicate 16 0) []).into_seed_stream).fill
            (List.replicate 16 0)).1 :=
  ⟨by decide,
    c3_into_seed_eq_stream_fill (PrgAes128.mk (List.replicate 16 0) [])
      (List.replicate 16 0) (by decide)⟩

/-- Folding `update` over a fragment list appends the flattened
fragments to the absorbed message. -/
lemma foldl_update_eq (frags : List (List Nat)) :
    ∀ key msg, List.foldl PrgAes128.update (PrgAes128.mk key msg) frags =
      PrgAes128.mk key (msg ++ frags.flatten) := by
  induction frags with
  | nil => intro key msg; simp
  | cons f fs ih =>
    intro key msg
    simp [PrgAes128.update, ih, List.append_assoc]

/-- Claim C5: info fragments are concatenated without delimiters — two
successive updates finalize identically to one update with the
concatenated fragment, and any sequence of updates equals a single
update with the flattened fragments in call order. -/
theorem c5_update_fragments_concat (seed a b : List Nat) (frags : List (List Nat)) :
    (((PrgAes128.init seed).update a).update b).into_seed_stream =
        ((PrgAes128.init seed).update (a ++ b)).into_seed_stream ∧
      List.foldl PrgAes128.update (PrgAes128.init seed) frags =
        (PrgAes128.init seed).update frags.flatten := by
  constructor
  · have hstate : ((PrgAes128.init seed).update a).update b =
        (PrgAes128.init seed).update (a ++ b) := by
      simp [PrgAes128.init, PrgAes128.update, List.append_assoc]
    rw [hstate]
  · rw [show PrgAes128.init seed = PrgAes128.mk seed [] from rfl, foldl_update_eq]
    simp [PrgAes128.update]

/-! ### Claim C1: the reference test vector -/

/-- The test-vector seed: sixteen `0x01` bytes. -/
def testVectorSeed : List Nat :=
  List.replicate 16 1

/-- The test-vector info string `"info string"`. -/
def testVectorInfo : List Nat :=
  [0x69, 0x6e, 0x66, 0x6f, 0x20, 0x73, 0x74, 0x72, 0x69, 0x6e, 0x67]

/-- The documented derived seed of the test vector. -/
def testVectorDerivedSeed : List Nat :=
  [0xcc, 0xf3, 0xbe, 0x70, 0x4c, 0x98, 0x21, 0x82,
    0xad, 0x29, 0x61, 0xe9, 0x79, 0x5a, 0x88, 0xaa]

/-- The first 32 bytes of the documented expanded byte sequence of the
test vector. -/
def testVectorExpandedPrefix : List Nat :=
  [0xcc, 0xf3, 0xbe, 0x70, 0x4c, 0x98, 0x21, 0x82,
    0xad, 0x29, 0x61, 0xe9, 0x79, 0x5a, 0x88, 0xaa,
    0x8d, 0xf7, 0x1c, 0x0b, 0x5e, 0xa5, 0xc1, 0x3b,
    0xcf, 0x31, 0x73, 0xc3, 0xf3, 0x62, 0x65, 0x05]

set_option maxHeartbeats 4000000 in
/-- Claim C1: on the seed of sixteen `0x01` bytes updated with the info
string `"info string"`, the AES128 PRG derives the documented seed via
`into_seed`, and the seed stream obtained via `into_seed_stream` begins
with the documented expanded bytes. -/
theorem c1_aes128_test_vector :
    ((PrgAes128.init testVectorSeed).update testVectorInfo).into_seed =
        testVectorDerivedSeed ∧
      ((((PrgAes128.init testVectorSeed).update testVectorInfo).into_seed_stream).fill
            (List.replicate 32 0)).1 = testVectorExpandedPrefix := by
  decide

end LibprioPrg
